import Mathlib

/-!
Verification of the instrumented Redis cache (`0x02-redis_basic/exercise.py`)
and the Mongo document lister (`0x01-NoSQL/8-all.py`).

Shallow embedding conventions:

* A Redis byte string is modelled by `Bytes`: either a valid UTF-8 sequence,
  identified with the `String` it decodes to (UTF-8 encoding is injective), or
  a non-UTF-8 sequence, identified abstractly by a numeral.  The code only
  ever compares byte strings for equality, decodes them as UTF-8, or parses
  the decoded text as an integer, so this abstraction is faithful.
* The Redis database is an association list from keys to values; a value is
  either a string or a list (the only two Redis types the code uses).
  Commands that Redis rejects (e.g. `RPUSH` on a string-typed key, `INCR` on
  a non-integer value) are modelled with `Except Unit`, an `error` result
  standing for a raised client error; likewise Python-level exceptions
  (`AttributeError`/`UnicodeDecodeError`/`ValueError`) surface as `error`.
* Python `str(n)` on integers is `intToStr`; Python `int(s)` is `parseInt`
  (optional sign followed by decimal digits; the whitespace/underscore
  tolerance of Python's parser is not modelled — no behaviour in this
  development depends on it).  Redis's own integer representation for `INCR`
  uses the same functions.
* `uuid4()` is modelled by an abstract stream of key strings carried in the
  cache state together with a cursor; freshness assumptions about generated
  keys are explicit hypotheses where needed.
-/

/-- A Redis byte string, abstracted by its UTF-8 decoding status: `text s` is
the (unique) valid UTF-8 encoding of `s`; `nonUtf8 j` is an abstract byte
sequence that is not valid UTF-8, tagged by `j` so distinct such sequences
stay distinguishable. -/
inductive Bytes where
  | text (s : String)
  | nonUtf8 (j : Nat)
deriving DecidableEq, Repr

/-- A Redis value: the code stores only strings (`SET`, `INCR`) and lists
(`RPUSH`). -/
inductive RVal where
  | str (b : Bytes)
  | list (l : List Bytes)
deriving DecidableEq, Repr

/-- The Redis database: an association list from keys to values (first match
wins on lookup). -/
abbrev RedisDB := List (String × RVal)

/-- The character for decimal digit `d`. -/
def digitChar (d : Nat) : Char := Char.ofNat (48 + d)

/-- Most-significant-first decimal digits of `n`, with explicit fuel (any
fuel `≥ n` is enough); `natDigits f 0 = []`. -/
def natDigits : Nat → Nat → List Nat
  | 0, _ => []
  | f + 1, n => if n = 0 then [] else natDigits f (n / 10) ++ [n % 10]

/-- Python `str` on a natural number. -/
def natToStr (n : Nat) : String :=
  if n = 0 then "0" else String.mk ((natDigits n n).map digitChar)

/-- Python `str` on an integer (also the textual form Redis keeps for
integer-valued keys). -/
def intToStr : Int → String
  | Int.ofNat m => natToStr m
  | Int.negSucc m => "-" ++ natToStr (m + 1)

/-- Is `c` a decimal digit character? -/
def isDigitCh (c : Char) : Bool := 48 ≤ c.toNat && c.toNat ≤ 57

/-- Value of a most-significant-first digit-character list. -/
def digitsNat (l : List Char) : Nat :=
  l.foldl (fun a c => a * 10 + (c.toNat - 48)) 0

/-- Value of a most-significant-first digit list. -/
def valNat (l : List Nat) : Nat := l.foldl (fun a d => a * 10 + d) 0

/-- Parse a nonempty all-digit character list. -/
def parseDigitList (l : List Char) : Option Nat :=
  if l.isEmpty then none
  else if l.all isDigitCh then some (digitsNat l) else none

/-- Python `int(s)`: optional sign, then a nonempty run of decimal digits. -/
def parseInt (s : String) : Option Int :=
  match s.data with
  | [] => none
  | c :: cs =>
    if c = '-' then (parseDigitList cs).map (fun n => -(n : Int))
    else if c = '+' then (parseDigitList cs).map (fun n => (n : Int))
    else (parseDigitList (c :: cs)).map (fun n => (n : Int))

/-! ## The Redis command model

Each function models one command of the external key-value store, as listed
in the spec's external-interface section: `SET`, `GET`, `INCR`, `RPUSH`,
`LRANGE key 0 -1`, `FLUSHDB`.  An `error` result models the client error the
store raises (e.g. `WRONGTYPE`, or `INCR` on a non-integer value). -/

/-- Update key `k` to `v`, keeping the position of an existing binding and
appending a new binding at the end otherwise. -/
def redisWrite (k : String) (v : RVal) : RedisDB → RedisDB
  | [] => [(k, v)]
  | (k', v') :: rest =>
    if k' = k then (k, v) :: rest else (k', v') :: redisWrite k v rest

/-- Command `SET k b`: stores the byte string `b` under `k`, overwriting any value. -/
def redisSet (db : RedisDB) (k : String) (b : Bytes) : RedisDB :=
  redisWrite k (RVal.str b) db

/-- Command `GET k`: `none` for an absent key, the byte string for a string-typed
key, a `WRONGTYPE` error for a list-typed key. -/
def redisGet (db : RedisDB) (k : String) : Except Unit (Option Bytes) :=
  match db.lookup k with
  | none => .ok none
  | some (RVal.str b) => .ok (some b)
  | some (RVal.list _) => .error ()

/-- Command `INCR k`: an absent key becomes `1`; an integer-valued string key is
incremented; anything else is an error. -/
def redisIncr (db : RedisDB) (k : String) : Except Unit (Int × RedisDB) :=
  match db.lookup k with
  | none => .ok (1, redisWrite k (RVal.str (Bytes.text (intToStr 1))) db)
  | some (RVal.str (Bytes.text s)) =>
    match parseInt s with
    | some m => .ok (m + 1, redisWrite k (RVal.str (Bytes.text (intToStr (m + 1)))) db)
    | none => .error ()
  | some _ => .error ()

/-- Command `RPUSH k b`: appends `b` at the tail of the list at `k`, creating the
list if the key is absent; a string-typed key is a `WRONGTYPE` error. -/
def redisRpush (db : RedisDB) (k : String) (b : Bytes) : Except Unit RedisDB :=
  match db.lookup k with
  | none => .ok (redisWrite k (RVal.list [b]) db)
  | some (RVal.list l) => .ok (redisWrite k (RVal.list (l ++ [b])) db)
  | some (RVal.str _) => .error ()

/-- Command `LRANGE k 0 -1`: the whole list at `k` (empty for an absent key); a
string-typed key is a `WRONGTYPE` error. -/
def redisLrangeAll (db : RedisDB) (k : String) : Except Unit (List Bytes) :=
  match db.lookup k with
  | none => .ok []
  | some (RVal.list l) => .ok l
  | some (RVal.str _) => .error ()

/-- Command `FLUSHDB`: wipes every key of the database, whatever it holds. -/
def redisFlushdb (_ : RedisDB) : RedisDB := []

/-- The list stored at `k` as the replay utility would read it (empty when
the key is absent or not list-typed). -/
def listAt (db : RedisDB) (k : String) : List Bytes :=
  match db.lookup k with
  | some (RVal.list l) => l
  | _ => []

/-! ## Python-level values and helpers -/

/-- A value a caller can pass to `Cache.store`
(`Union[str, bytes, int, float]`).  A float is represented by its `repr`
string: the code never computes with floats, it only serializes them, and
`repr` is injective on Python floats. -/
inductive PyVal where
  | vstr (s : String)
  | vbytes (b : Bytes)
  | vint (n : Int)
  | vfloat (r : String)
deriving DecidableEq, Repr

/-- Python `repr` of a stored value, as it appears inside `str(args)`.
Escaping of special characters inside string/bytes literals is not modelled
(no behaviour in this development depends on it); a non-UTF-8 bytes object
is rendered through its abstract tag. -/
def pyRepr : PyVal → String
  | .vstr s => "\x27" ++ s ++ "\x27"
  | .vbytes (.text s) => "b\x27" ++ s ++ "\x27"
  | .vbytes (.nonUtf8 j) => "b\x27\\x" ++ natToStr j ++ "\x27"
  | .vint n => intToStr n
  | .vfloat r => r

/-- Python `str(args)` for the one-argument call `store(data)`: the `repr` of the
singleton tuple `(data,)`. -/
def serializeArgs (v : PyVal) : String := "(" ++ pyRepr v ++ ",)"

/-- How the Redis client serializes a value passed to `SET`: strings are
UTF-8 encoded, bytes pass through, numbers are sent as their decimal text. -/
def encodeVal : PyVal → Bytes
  | .vstr s => .text s
  | .vbytes b => b
  | .vint n => .text (intToStr n)
  | .vfloat r => .text r

/-- Python `value.decode("utf-8")` applied to the result of `GET`:
`None` raises `AttributeError`, non-UTF-8 bytes raise
`UnicodeDecodeError`, both modelled as `error`. -/
def pyDecodeUtf8 : Option Bytes → Except Unit String
  | some (Bytes.text s) => .ok s
  | _ => .error ()

/-- Python `try: int(value.decode("utf-8")) except Exception: 0` applied to
the result of `GET` — the fallback-to-zero conversion of `get_int`. -/
def pyTryInt : Option Bytes → Int
  | some (Bytes.text s) => (parseInt s).getD 0
  | _ => 0

/-- The per-entry decoding of `replay`:
`try: x.decode("utf-8") except Exception: ""`. -/
def pyDecodeOrEmpty : Bytes → String
  | Bytes.text s => s
  | Bytes.nonUtf8 _ => ""

/-! ## The instrumented cache -/

/-- The state of a `Cache` object: its Redis connection's database, plus the
abstract stream of identifiers `uuid4()` will hand out and a cursor into
that stream. -/
structure CacheState where
  db : RedisDB
  uuidSeq : Nat → String
  uuidIdx : Nat

/-- An executed Redis command, used to record the order in which a call
issues its side effects. -/
inductive RCmd where
  | incr (k : String)
  | rpush (k : String) (b : Bytes)
  | set (k : String) (b : Bytes)
deriving DecidableEq, Repr

/-- The result of a successful call to (a decoration of) `store`: the
returned string, the state afterwards, and the Redis commands issued by the
call, in order. -/
structure MethResult where
  out : String
  st : CacheState
  trace : List RCmd

/-- The shape of `Cache.store` and of its decorations: Python's `self` is
the cache state, the one positional argument is the stored value. -/
def Meth := CacheState → PyVal → Except Unit MethResult

/-- The string `method.__qualname__` for `Cache.store` — the counter key used by
`count_calls` (and, via `functools.wraps`, by `call_history` and `replay`). -/
def countKey : String := "Cache.store"

/-- The input-history key `method.__qualname__ + ":inputs"`. -/
def inputsKey : String := countKey ++ ":inputs"

/-- The output-history key `method.__qualname__ + ":outputs"`. -/
def outputsKey : String := countKey ++ ":outputs"

/-- The `count_calls` decorator: `self._redis.incr(key)` with
`key = method.__qualname__`, then delegate to the wrapped method. -/
def count_calls (m : Meth) : Meth := fun st v =>
  match redisIncr st.db countKey with
  | .error e => .error e
  | .ok (_, db1) =>
    match m (CacheState.mk db1 st.uuidSeq st.uuidIdx) v with
    | .error e => .error e
    | .ok r => .ok (MethResult.mk r.out r.st (RCmd.incr countKey :: r.trace))

/-- The `call_history` decorator: `rpush` the serialized arguments to the
`":inputs"` list, delegate, `rpush` the stringified return value to the
`":outputs"` list, and return that string (the wrapped method returns a
string already, so `str(...)` leaves it unchanged). -/
def call_history (m : Meth) : Meth := fun st v =>
  match redisRpush st.db inputsKey (Bytes.text (serializeArgs v)) with
  | .error e => .error e
  | .ok db1 =>
    match m (CacheState.mk db1 st.uuidSeq st.uuidIdx) v with
    | .error e => .error e
    | .ok r =>
      match redisRpush r.st.db outputsKey (Bytes.text r.out) with
      | .error e => .error e
      | .ok db2 =>
        .ok (MethResult.mk r.out (CacheState.mk db2 r.st.uuidSeq r.st.uuidIdx)
          (RCmd.rpush inputsKey (Bytes.text (serializeArgs v)) ::
            (r.trace ++ [RCmd.rpush outputsKey (Bytes.text r.out)])))

namespace Cache

/-- The undecorated body of `Cache.store`: draw a fresh identifier from the
`uuid4` stream, `SET` the serialized value under it, return the identifier. -/
def store_core : Meth := fun st v =>
  .ok (MethResult.mk (st.uuidSeq st.uuidIdx)
    (CacheState.mk (redisSet st.db (st.uuidSeq st.uuidIdx) (encodeVal v))
      st.uuidSeq (st.uuidIdx + 1))
    [RCmd.set (st.uuidSeq st.uuidIdx) (encodeVal v)])

/-- Method `Cache.store` exactly as decorated in the source:
`@call_history` sits above `@count_calls`, so
`store = call_history(count_calls(store_core))`. -/
def store : Meth := call_history (count_calls store_core)

/-- Constructor `Cache.__init__`: connect to the (possibly populated) database and
immediately `FLUSHDB`. -/
def init (db : RedisDB) (seq : Nat → String) : CacheState :=
  CacheState.mk (redisFlushdb db) seq 0

/-- Method `Cache.get` with no conversion function: the raw `GET` result. -/
def get (st : CacheState) (k : String) : Except Unit (Option Bytes) :=
  redisGet st.db k

/-- Method `Cache.get` with a conversion function supplied: the function is applied
to whatever `GET` returned, including the `None` sentinel (the function may
itself raise, modelled by an `Except`-valued `fn`). -/
def getFn {α : Type} (st : CacheState) (k : String)
    (fn : Option Bytes → Except Unit α) : Except Unit α :=
  match redisGet st.db k with
  | .error e => .error e
  | .ok v => fn v

/-- Method `Cache.get_str`: `GET` then `value.decode("utf-8")`, with no exception
handling. -/
def get_str (st : CacheState) (k : String) : Except Unit String :=
  match redisGet st.db k with
  | .error e => .error e
  | .ok v => pyDecodeUtf8 v

/-- Method `Cache.get_int`: `GET` then `int(value.decode("utf-8"))` with every
conversion failure turned into `0`; an error from `GET` itself still
propagates. -/
def get_int (st : CacheState) (k : String) : Except Unit Int :=
  match redisGet st.db k with
  | .error e => .error e
  | .ok v => .ok (pyTryInt v)

end Cache

/-- Iterate `Cache.store` over a list of values, collecting the returned
keys in call order — "calling `store` N times". -/
def runStores : CacheState → List PyVal → Except Unit (CacheState × List String)
  | st, [] => .ok (st, [])
  | st, v :: vs =>
    match Cache.store st v with
    | .error e => .error e
    | .ok r =>
      match runStores r.st vs with
      | .error e => .error e
      | .ok (st', ks) => .ok (st', r.out :: ks)

/-- The counter text as the `replay` header interpolates it:
`try: n_calls.decode("utf-8") except Exception: n_calls = 0` — an absent or
non-UTF-8 counter prints as `0`. -/
def replayCount : Option Bytes → String
  | some (Bytes.text s) => s
  | _ => intToStr 0

/-- The `replay` utility: read the counter (absent or undecodable counts
print as `0`), read both history lists in full, and render the header line
followed by one line per positionally zipped input/output pair, decoding
each entry with an empty-string fallback. -/
def replay (db : RedisDB) (fName : String) : Except Unit (List String) :=
  match redisGet db fName with
  | .error e => .error e
  | .ok nRaw =>
    let nStr := replayCount nRaw
    match redisLrangeAll db (fName ++ ":inputs") with
    | .error e => .error e
    | .ok ins =>
      match redisLrangeAll db (fName ++ ":outputs") with
      | .error e => .error e
      | .ok outs =>
        .ok ((fName ++ " was called " ++ nStr ++ " times:") ::
          (ins.zip outs).map (fun p =>
            fName ++ "(*" ++ pyDecodeOrEmpty p.1 ++ ") -> " ++ pyDecodeOrEmpty p.2))

/-- Query `find()` on a Mongo collection, modelled as the collection's documents
in the store's native iteration order. -/
def mongoFind {α : Type} (c : List α) : List α := c

/-- Function `list_all`: an absent handle yields `[]`; otherwise the list
comprehension `[doc for doc in collection.find()]`. -/
def list_all {α : Type} (coll : Option (List α)) : List α :=
  match coll with
  | none => []
  | some c => (mongoFind c).foldr List.cons []

/-- The identifiers drawn from the `uuid4` stream never collide with the
three bookkeeping keys.  Real `uuid4()` strings are 36-character
hex-and-dash strings, so this always holds for the modelled program. -/
def FreshSeq (seq : Nat → String) : Prop :=
  ∀ i, seq i ≠ countKey ∧ seq i ≠ inputsKey ∧ seq i ≠ outputsKey

/-- The call counter as `get_int` would report it: the integer parsed from
the string at `countKey`, with `0` for an absent or unparseable value. -/
def counterVal (db : RedisDB) : Int :=
  match db.lookup countKey with
  | some (RVal.str (Bytes.text s)) => (parseInt s).getD 0
  | _ => 0

/-- The bookkeeping state reached after `n` calls to `store` on a fresh
cache: the `uuid4` cursor is at `n`, the counter key holds the decimal text
of `n` (absent when `n = 0`), and the two history keys hold the lists `ins`
and `outs` (absent when `n = 0`). -/
def Reach (seq : Nat → String) (n : Nat) (ins outs : List Bytes)
    (st : CacheState) : Prop :=
  st.uuidSeq = seq ∧ st.uuidIdx = n ∧ ins.length = n ∧ outs.length = n ∧
  st.db.lookup countKey =
    (if n = 0 then none else some (RVal.str (Bytes.text (intToStr n)))) ∧
  st.db.lookup inputsKey = (if n = 0 then none else some (RVal.list ins)) ∧
  st.db.lookup outputsKey = (if n = 0 then none else some (RVal.list outs))

/-- The database after one successful `store` call starting from a state
satisfying `Reach`: inputs list extended, counter bumped, value set under the
fresh key, outputs list extended. -/
def stepDb (seq : Nat → String) (n : Nat) (ins outs : List Bytes)
    (db : RedisDB) (v : PyVal) : RedisDB :=
  redisWrite outputsKey (RVal.list (outs ++ [Bytes.text (seq n)]))
    (redisSet
      (redisWrite countKey (RVal.str (Bytes.text (intToStr ((n : Int) + 1))))
        (redisWrite inputsKey
          (RVal.list (ins ++ [Bytes.text (serializeArgs v)])) db))
      (seq n) (encodeVal v))

/-! ## Concrete example data used by the witnesses -/

/-- A constant identifier stream for concrete runs; `"key"` differs from all
three bookkeeping keys. -/
def keySeq : Nat → String := fun _ => "key"

/-- The database after `store(7)` on a freshly constructed cache drawing
keys from `keySeq`. -/
def oneCallDb : RedisDB :=
  [(inputsKey, RVal.list [Bytes.text "(7,)"]),
   (countKey, RVal.str (Bytes.text "1")),
   ("key", RVal.str (Bytes.text "7")),
   (outputsKey, RVal.list [Bytes.text "key"])]

/-- The full result of that `store(7)` call. -/
def oneCallResult : MethResult :=
  MethResult.mk "key" (CacheState.mk oneCallDb keySeq 1)
    [RCmd.rpush inputsKey (Bytes.text "(7,)"), RCmd.incr countKey,
     RCmd.set "key" (Bytes.text "7"), RCmd.rpush outputsKey (Bytes.text "key")]

/-- The state after `store(7); store(8)` on a freshly constructed cache. -/
def twoCallState : CacheState :=
  CacheState.mk
    [(inputsKey, RVal.list [Bytes.text "(7,)", Bytes.text "(8,)"]),
     (countKey, RVal.str (Bytes.text "2")),
     ("key", RVal.str (Bytes.text "8")),
     (outputsKey, RVal.list [Bytes.text "key", Bytes.text "key"])]
    keySeq 2

/-- The state after `store(1); store(2); store(3)` on a freshly constructed
cache. -/
def threeCallState : CacheState :=
  CacheState.mk
    [(inputsKey, RVal.list [Bytes.text "(1,)", Bytes.text "(2,)", Bytes.text "(3,)"]),
     (countKey, RVal.str (Bytes.text "3")),
     ("key", RVal.str (Bytes.text "3")),
     (outputsKey, RVal.list [Bytes.text "key", Bytes.text "key", Bytes.text "key"])]
    keySeq 3

/-- The full result of a single `store(42)` call on a fresh cache. -/
def intStoreResult : MethResult :=
  MethResult.mk "key"
    (CacheState.mk
      [(inputsKey, RVal.list [Bytes.text "(42,)"]),
       (countKey, RVal.str (Bytes.text "1")),
       ("key", RVal.str (Bytes.text "42")),
       (outputsKey, RVal.list [Bytes.text "key"])]
      keySeq 1)
    [RCmd.rpush inputsKey (Bytes.text "(42,)"), RCmd.incr countKey,
     RCmd.set "key" (Bytes.text "42"), RCmd.rpush outputsKey (Bytes.text "key")]

/-- A database with desynchronized history lists for the method name `"f"`
(three inputs, one of them not valid UTF-8, but only two outputs) and no
counter key. -/
def replayDb : RedisDB :=
  [("f:inputs", RVal.list [Bytes.text "(1,)", Bytes.nonUtf8 0, Bytes.text "(3,)"]),
   ("f:outputs", RVal.list [Bytes.text "k1", Bytes.text "k2"])]

/-- A database holding a non-UTF-8 value at `"a"` and non-numeric text at
`"b"`. -/
def badValsDb : RedisDB :=
  [("a", RVal.str (Bytes.nonUtf8 0)), ("b", RVal.str (Bytes.text "foo"))]

/-! ## Arithmetic-text lemmas -/

theorem digitChar_toNat {d : Nat} (h : d < 10) : (digitChar d).toNat = 48 + d := by
  interval_cases d <;> decide

theorem isDigitCh_digitChar {d : Nat} (h : d < 10) : isDigitCh (digitChar d) = true := by
  interval_cases d <;> decide

theorem digitChar_ne_sign {d : Nat} (h : d < 10) :
    digitChar d ≠ '-' ∧ digitChar d ≠ '+' := by
  interval_cases d <;> exact ⟨by decide, by decide⟩

theorem natDigits_lt {f n : Nat} (h : n ≤ f) : ∀ d ∈ natDigits f n, d < 10 := by
  induction f generalizing n with
  | zero => intro d hd; simp [natDigits] at hd
  | succ f ih =>
    intro d hd
    by_cases hn : n = 0
    · simp [natDigits, hn] at hd
    · rw [natDigits, if_neg hn] at hd
      rcases List.mem_append.mp hd with hmem | hmem
      · exact ih (by omega) d hmem
      · simp at hmem; omega

theorem natDigits_ne_nil {f n : Nat} (h1 : 1 ≤ n) (h2 : n ≤ f) :
    natDigits f n ≠ [] := by
  cases f with
  | zero => omega
  | succ f => rw [natDigits, if_neg (by omega)]; simp

theorem valNat_append_one (l : List Nat) (d : Nat) :
    valNat (l ++ [d]) = valNat l * 10 + d := by
  simp [valNat, List.foldl_append]

theorem valNat_natDigits {f n : Nat} (h : n ≤ f) : valNat (natDigits f n) = n := by
  induction f generalizing n with
  | zero => rw [show n = 0 by omega]; rfl
  | succ f ih =>
    by_cases hn : n = 0
    · rw [hn]; rfl
    · rw [natDigits, if_neg hn, valNat_append_one, ih (by omega)]
      omega

theorem digitsNat_map {l : List Nat} (h : ∀ d ∈ l, d < 10) :
    digitsNat (l.map digitChar) = valNat l := by
  suffices hgen : ∀ a : Nat,
      (l.map digitChar).foldl (fun a c => a * 10 + (c.toNat - 48)) a =
        l.foldl (fun a d => a * 10 + d) a by
    exact hgen 0
  induction l with
  | nil => intro a; rfl
  | cons d l ih =>
    intro a
    have hd : d < 10 := h d (List.mem_cons_self d l)
    simp only [List.map_cons, List.foldl_cons]
    rw [digitChar_toNat hd, show 48 + d - 48 = d by omega]
    exact ih (fun x hx => h x (List.mem_cons_of_mem d hx)) _

theorem parseDigitList_map {l : List Nat} (hne : l ≠ []) (h : ∀ d ∈ l, d < 10) :
    parseDigitList (l.map digitChar) = some (valNat l) := by
  rw [parseDigitList, if_neg, if_pos, digitsNat_map h]
  · rw [List.all_eq_true]
    intro c hc
    rcases List.mem_map.mp hc with ⟨d, hd, rfl⟩
    exact isDigitCh_digitChar (h d hd)
  · simp [List.isEmpty_eq_true, hne]

theorem parseInt_digit_str {l : List Nat} (hne : l ≠ []) (h : ∀ d ∈ l, d < 10) :
    parseInt (String.mk (l.map digitChar)) = some ((valNat l : Nat) : Int) := by
  cases l with
  | nil => exact absurd rfl hne
  | cons d ds =>
    have hd : d < 10 := h d (List.mem_cons_self d ds)
    rw [parseInt]
    simp only [List.map_cons]
    rw [if_neg (digitChar_ne_sign hd).1, if_neg (digitChar_ne_sign hd).2,
      show digitChar d :: ds.map digitChar = (d :: ds).map digitChar from rfl,
      parseDigitList_map (by simp) h]
    rfl

/-- Round trip: Python `int(str(n)) == n`, in the model. -/
theorem parseInt_intToStr (n : Int) : parseInt (intToStr n) = some n := by
  cases n with
  | ofNat m =>
    show parseInt (natToStr m) = some (m : Int)
    by_cases hm : m = 0
    · rw [hm]; decide
    · rw [natToStr, if_neg hm,
        parseInt_digit_str (natDigits_ne_nil (by omega) le_rfl) (natDigits_lt le_rfl),
        valNat_natDigits le_rfl]
  | negSucc m =>
    rw [intToStr, natToStr, if_neg (by omega : ¬m + 1 = 0), parseInt]
    have hdata : ("-" ++ String.mk ((natDigits (m + 1) (m + 1)).map digitChar)).data =
        '-' :: (natDigits (m + 1) (m + 1)).map digitChar := by
      simp [String.data_append]
    rw [hdata]
    simp only [if_pos rfl]
    rw [parseDigitList_map (natDigits_ne_nil (by omega) le_rfl) (natDigits_lt le_rfl),
      valNat_natDigits le_rfl]
    simp [Int.negSucc_eq]

/-! ## Association-list lemmas -/

theorem lookup_redisWrite_self (db : RedisDB) (k : String) (v : RVal) :
    (redisWrite k v db).lookup k = some v := by
  induction db with
  | nil => simp [redisWrite, List.lookup]
  | cons hd tl ih =>
    obtain ⟨k', v'⟩ := hd
    by_cases h : k' = k
    · subst h; simp [redisWrite, List.lookup]
    · simp only [redisWrite, if_neg h, List.lookup]
      rw [show (k == k') = false from beq_eq_false_iff_ne.mpr (Ne.symm h)]
      exact ih

theorem lookup_redisWrite_ne (db : RedisDB) {k k' : String} (v : RVal)
    (h : k' ≠ k) : (redisWrite k v db).lookup k' = db.lookup k' := by
  induction db with
  | nil =>
    simp only [redisWrite, List.lookup, List.lookup_nil]
    rw [show (k' == k) = false from beq_eq_false_iff_ne.mpr h]
  | cons hd tl ih =>
    obtain ⟨k0, v0⟩ := hd
    by_cases hk : k0 = k
    · subst hk
      simp only [redisWrite, if_pos rfl, List.lookup]
      rw [show (k' == k0) = false from beq_eq_false_iff_ne.mpr h]
    · simp only [redisWrite, if_neg hk, List.lookup]
      cases hbeq : k' == k0 with
      | true => rfl
      | false => exact ih

theorem listAt_redisWrite_ne (db : RedisDB) {k k' : String} (v : RVal)
    (h : k' ≠ k) : listAt (redisWrite k v db) k' = listAt db k' := by
  unfold listAt
  rw [lookup_redisWrite_ne db v h]

theorem listAt_redisWrite_list (db : RedisDB) (k : String) (l : List Bytes) :
    listAt (redisWrite k (RVal.list l) db) k = l := by
  unfold listAt
  rw [lookup_redisWrite_self]

/-! ## Command-level lemmas -/

theorem listAt_eq_nil_of_none {db : RedisDB} {k : String}
    (h : db.lookup k = none) : listAt db k = [] := by
  unfold listAt
  rw [h]

theorem listAt_eq_of_list {db : RedisDB} {k : String} {l : List Bytes}
    (h : db.lookup k = some (RVal.list l)) : listAt db k = l := by
  unfold listAt
  rw [h]

theorem redisRpush_not_str {db : RedisDB} {k : String} (b : Bytes)
    (h : ∀ s, db.lookup k ≠ some (RVal.str s)) :
    redisRpush db k b = .ok (redisWrite k (RVal.list (listAt db k ++ [b])) db) := by
  cases hl : db.lookup k with
  | none =>
    rw [listAt_eq_nil_of_none hl]
    unfold redisRpush
    rw [hl]
    simp
  | some rv =>
    cases rv with
    | str s => exact absurd hl (h s)
    | list l =>
      rw [listAt_eq_of_list hl]
      unfold redisRpush
      rw [hl]

theorem redisRpush_ok_inv {db db' : RedisDB} {k : String} {b : Bytes}
    (h : redisRpush db k b = .ok db') :
    db' = redisWrite k (RVal.list (listAt db k ++ [b])) db ∧
      ∀ s, db.lookup k ≠ some (RVal.str s) := by
  cases hl : db.lookup k with
  | none =>
    unfold redisRpush at h
    rw [hl] at h
    have h' : (Except.ok (redisWrite k (RVal.list [b]) db) : Except Unit RedisDB) = .ok db' := h
    injection h' with h2
    rw [listAt_eq_nil_of_none hl]
    exact ⟨h2.symm ▸ (by simp), by simp [hl]⟩
  | some rv =>
    cases rv with
    | str s =>
      unfold redisRpush at h
      rw [hl] at h
      exact absurd h (by simp)
    | list l =>
      unfold redisRpush at h
      rw [hl] at h
      have h' : (Except.ok (redisWrite k (RVal.list (l ++ [b])) db) : Except Unit RedisDB) = .ok db' := h
      injection h' with h2
      rw [listAt_eq_of_list hl]
      exact ⟨h2.symm, by simp [hl]⟩

theorem redisIncr_absent {db : RedisDB} {k : String} (h : db.lookup k = none) :
    redisIncr db k = .ok (1, redisWrite k (RVal.str (Bytes.text (intToStr 1))) db) := by
  unfold redisIncr
  rw [h]

theorem redisIncr_int {db : RedisDB} {k : String} (m : Int)
    (h : db.lookup k = some (RVal.str (Bytes.text (intToStr m)))) :
    redisIncr db k =
      .ok (m + 1, redisWrite k (RVal.str (Bytes.text (intToStr (m + 1)))) db) := by
  unfold redisIncr
  rw [h]
  show (match parseInt (intToStr m) with
    | some m0 =>
      Except.ok (m0 + 1, redisWrite k (RVal.str (Bytes.text (intToStr (m0 + 1)))) db)
    | none => Except.error ()) = _
  rw [parseInt_intToStr]

theorem countKey_ne_inputsKey : countKey ≠ inputsKey := by decide

theorem countKey_ne_outputsKey : countKey ≠ outputsKey := by decide

theorem inputsKey_ne_outputsKey : inputsKey ≠ outputsKey := by decide

/-- Method `Cache.store` unfolded once: the decoration order written in the source
(`@call_history` above `@count_calls`) issues, on the success path,
`RPUSH :inputs`, then `INCR`, then `SET`, then `RPUSH :outputs`. -/
theorem store_eq (st : CacheState) (v : PyVal) :
    Cache.store st v =
      match redisRpush st.db inputsKey (Bytes.text (serializeArgs v)) with
      | .error e => .error e
      | .ok db1 =>
        match redisIncr db1 countKey with
        | .error e => .error e
        | .ok (_, db2) =>
          match redisRpush (redisSet db2 (st.uuidSeq st.uuidIdx) (encodeVal v))
              outputsKey (Bytes.text (st.uuidSeq st.uuidIdx)) with
          | .error e => .error e
          | .ok db4 =>
            .ok (MethResult.mk (st.uuidSeq st.uuidIdx)
              (CacheState.mk db4 st.uuidSeq (st.uuidIdx + 1))
              [RCmd.rpush inputsKey (Bytes.text (serializeArgs v)),
                RCmd.incr countKey,
                RCmd.set (st.uuidSeq st.uuidIdx) (encodeVal v),
                RCmd.rpush outputsKey (Bytes.text (st.uuidSeq st.uuidIdx))]) := by
  show call_history (count_calls Cache.store_core) st v = _
  unfold call_history count_calls Cache.store_core
  cases redisRpush st.db inputsKey (Bytes.text (serializeArgs v)) with
  | error e => rfl
  | ok db1 =>
    dsimp only
    cases redisIncr db1 countKey with
    | error e => rfl
    | ok p =>
      obtain ⟨n, db2⟩ := p
      dsimp only
      cases redisRpush (redisSet db2 (st.uuidSeq st.uuidIdx) (encodeVal v))
          outputsKey (Bytes.text (st.uuidSeq st.uuidIdx)) with
      | error e => rfl
      | ok db4 => rfl

/-! ## The step lemma and the reachability invariant -/

theorem Reach_init (db : RedisDB) (seq : Nat → String) :
    Reach seq 0 [] [] (Cache.init db seq) :=
  ⟨rfl, rfl, rfl, rfl, rfl, rfl, rfl⟩

theorem store_step {seq : Nat → String} (hf : FreshSeq seq) {n : Nat}
    {ins outs : List Bytes} {st : CacheState} (v : PyVal)
    (hInv : Reach seq n ins outs st) :
    Cache.store st v = .ok (MethResult.mk (seq n)
      (CacheState.mk (stepDb seq n ins outs st.db v) seq (n + 1))
      [RCmd.rpush inputsKey (Bytes.text (serializeArgs v)), RCmd.incr countKey,
        RCmd.set (seq n) (encodeVal v),
        RCmd.rpush outputsKey (Bytes.text (seq n))]) := by
  obtain ⟨hseq, hidx, hlin, hlout, hc, hi, ho⟩ := hInv
  have hIA : listAt st.db inputsKey = ins := by
    by_cases n0 : n = 0
    · rw [listAt_eq_nil_of_none (by rw [hi, if_pos n0])]
      subst n0
      exact (List.length_eq_zero.mp hlin).symm
    · exact listAt_eq_of_list (by rw [hi, if_neg n0])
  have hnsIn : ∀ s, st.db.lookup inputsKey ≠ some (RVal.str s) := by
    intro s hs
    rw [hi] at hs
    by_cases n0 : n = 0
    · rw [if_pos n0] at hs
      exact Option.noConfusion hs
    · rw [if_neg n0] at hs
      exact RVal.noConfusion ((Option.some.injEq _ _).mp hs)
  have e1 := redisRpush_not_str (Bytes.text (serializeArgs v)) hnsIn
  rw [hIA] at e1
  have hc1 : (redisWrite inputsKey
      (RVal.list (ins ++ [Bytes.text (serializeArgs v)])) st.db).lookup countKey =
      (if n = 0 then none else some (RVal.str (Bytes.text (intToStr n)))) := by
    rw [lookup_redisWrite_ne _ _ countKey_ne_inputsKey, hc]
  have e2 : redisIncr (redisWrite inputsKey
      (RVal.list (ins ++ [Bytes.text (serializeArgs v)])) st.db) countKey =
      .ok ((n : Int) + 1,
        redisWrite countKey (RVal.str (Bytes.text (intToStr ((n : Int) + 1))))
          (redisWrite inputsKey
            (RVal.list (ins ++ [Bytes.text (serializeArgs v)])) st.db)) := by
    by_cases n0 : n = 0
    · rw [if_pos n0] at hc1
      subst n0
      simpa using redisIncr_absent hc1
    · rw [if_neg n0] at hc1
      exact redisIncr_int (n : Int) hc1
  have e3pre : (redisSet
      (redisWrite countKey (RVal.str (Bytes.text (intToStr ((n : Int) + 1))))
        (redisWrite inputsKey
          (RVal.list (ins ++ [Bytes.text (serializeArgs v)])) st.db))
      (seq n) (encodeVal v)).lookup outputsKey = st.db.lookup outputsKey := by
    unfold redisSet
    rw [lookup_redisWrite_ne _ _ (Ne.symm (hf n).2.2),
      lookup_redisWrite_ne _ _ countKey_ne_outputsKey.symm,
      lookup_redisWrite_ne _ _ inputsKey_ne_outputsKey.symm]
  have hns3 : ∀ s, (redisSet
      (redisWrite countKey (RVal.str (Bytes.text (intToStr ((n : Int) + 1))))
        (redisWrite inputsKey
          (RVal.list (ins ++ [Bytes.text (serializeArgs v)])) st.db))
      (seq n) (encodeVal v)).lookup outputsKey ≠ some (RVal.str s) := by
    intro s hs
    rw [e3pre, ho] at hs
    by_cases n0 : n = 0
    · rw [if_pos n0] at hs
      exact Option.noConfusion hs
    · rw [if_neg n0] at hs
      exact RVal.noConfusion ((Option.some.injEq _ _).mp hs)
  have hOA3 : listAt (redisSet
      (redisWrite countKey (RVal.str (Bytes.text (intToStr ((n : Int) + 1))))
        (redisWrite inputsKey
          (RVal.list (ins ++ [Bytes.text (serializeArgs v)])) st.db))
      (seq n) (encodeVal v)) outputsKey = outs := by
    have hstep : listAt (redisSet
        (redisWrite countKey (RVal.str (Bytes.text (intToStr ((n : Int) + 1))))
          (redisWrite inputsKey
            (RVal.list (ins ++ [Bytes.text (serializeArgs v)])) st.db))
        (seq n) (encodeVal v)) outputsKey = listAt st.db outputsKey := by
      unfold listAt
      rw [e3pre]
    rw [hstep]
    by_cases n0 : n = 0
    · rw [listAt_eq_nil_of_none (by rw [ho, if_pos n0])]
      subst n0
      exact (List.length_eq_zero.mp hlout).symm
    · exact listAt_eq_of_list (by rw [ho, if_neg n0])
  have e3 := redisRpush_not_str (Bytes.text (seq n)) hns3
  rw [hOA3] at e3
  rw [store_eq, hseq, hidx, e1]
  dsimp only
  rw [e2]
  dsimp only
  rw [e3]
  dsimp only
  rfl

theorem Reach_step {seq : Nat → String} (hf : FreshSeq seq) {n : Nat}
    {ins outs : List Bytes} {st : CacheState} (v : PyVal)
    (hInv : Reach seq n ins outs st) :
    Reach seq (n + 1) (ins ++ [Bytes.text (serializeArgs v)])
      (outs ++ [Bytes.text (seq n)])
      (CacheState.mk (stepDb seq n ins outs st.db v) seq (n + 1)) := by
  obtain ⟨hseq, hidx, hlin, hlout, hc, hi, ho⟩ := hInv
  have hcast : ((n + 1 : Nat) : Int) = (n : Int) + 1 := by push_cast; ring
  refine ⟨rfl, rfl, by simp [hlin], by simp [hlout], ?_, ?_, ?_⟩
  · show (stepDb seq n ins outs st.db v).lookup countKey = _
    unfold stepDb redisSet
    rw [lookup_redisWrite_ne _ _ countKey_ne_outputsKey,
      lookup_redisWrite_ne _ _ (Ne.symm (hf n).1),
      lookup_redisWrite_self, if_neg (Nat.succ_ne_zero n), hcast]
  · show (stepDb seq n ins outs st.db v).lookup inputsKey = _
    unfold stepDb redisSet
    rw [lookup_redisWrite_ne _ _ inputsKey_ne_outputsKey,
      lookup_redisWrite_ne _ _ (Ne.symm (hf n).2.1),
      lookup_redisWrite_ne _ _ countKey_ne_inputsKey.symm,
      lookup_redisWrite_self, if_neg (Nat.succ_ne_zero n)]
  · show (stepDb seq n ins outs st.db v).lookup outputsKey = _
    unfold stepDb
    rw [lookup_redisWrite_self, if_neg (Nat.succ_ne_zero n)]

theorem runStores_reach {seq : Nat → String} (hf : FreshSeq seq) :
    ∀ (vs : List PyVal) (n : Nat) (ins outs : List Bytes) (st : CacheState),
      Reach seq n ins outs st →
      ∃ st' ks, runStores st vs = .ok (st', ks) ∧ ks.length = vs.length ∧
        Reach seq (n + vs.length)
          (ins ++ vs.map (fun v => Bytes.text (serializeArgs v)))
          (outs ++ ks.map Bytes.text) st' := by
  intro vs
  induction vs with
  | nil =>
    intro n ins outs st hInv
    exact ⟨st, [], rfl, rfl, by simpa using hInv⟩
  | cons v vs ih =>
    intro n ins outs st hInv
    have hstep := store_step hf v hInv
    have hinv2 := Reach_step hf v hInv
    obtain ⟨st', ks, hrun, hlen, hInv3⟩ := ih (n + 1) _ _ _ hinv2
    refine ⟨st', seq n :: ks, ?_, by simp [hlen], ?_⟩
    · simp only [runStores, hstep, hrun]
    · have hn : n + (v :: vs).length = n + 1 + vs.length := by
        simp only [List.length_cons]
        omega
      rw [hn, List.map_cons, List.map_cons, List.append_cons,
        List.append_cons outs (Bytes.text (seq n))]
      exact hInv3

theorem store_ok_cases {st : CacheState} {v : PyVal} {r : MethResult}
    (h : Cache.store st v = .ok r) :
    ∃ db1 nv db2,
      redisRpush st.db inputsKey (Bytes.text (serializeArgs v)) = .ok db1 ∧
      redisIncr db1 countKey = .ok (nv, db2) ∧
      redisRpush (redisSet db2 (st.uuidSeq st.uuidIdx) (encodeVal v)) outputsKey
        (Bytes.text (st.uuidSeq st.uuidIdx)) = .ok r.st.db ∧
      r.out = st.uuidSeq st.uuidIdx ∧ r.st.uuidSeq = st.uuidSeq ∧
      r.st.uuidIdx = st.uuidIdx + 1 ∧
      r.trace = [RCmd.rpush inputsKey (Bytes.text (serializeArgs v)),
        RCmd.incr countKey, RCmd.set (st.uuidSeq st.uuidIdx) (encodeVal v),
        RCmd.rpush outputsKey (Bytes.text (st.uuidSeq st.uuidIdx))] := by
  rw [store_eq] at h
  revert h
  cases h1 : redisRpush st.db inputsKey (Bytes.text (serializeArgs v)) with
  | error e => intro h; simp at h
  | ok db1 =>
    intro h
    dsimp only at h
    revert h
    cases h2 : redisIncr db1 countKey with
    | error e => intro h; simp at h
    | ok p =>
      obtain ⟨nv, db2⟩ := p
      intro h
      dsimp only at h
      revert h
      cases h3 : redisRpush (redisSet db2 (st.uuidSeq st.uuidIdx) (encodeVal v))
          outputsKey (Bytes.text (st.uuidSeq st.uuidIdx)) with
      | error e => intro h; simp at h
      | ok db4 =>
        intro h
        dsimp only at h
        injection h with hXr
        subst hXr
        exact ⟨db1, nv, db2, rfl, h2, h3, rfl, rfl, rfl, rfl⟩

theorem redisIncr_ok_inv {db db2 : RedisDB} {k : String} {nv : Int}
    (h : redisIncr db k = .ok (nv, db2)) :
    db2 = redisWrite k (RVal.str (Bytes.text (intToStr nv))) db ∧
      ((db.lookup k = none ∧ nv = 1) ∨
        (∃ s, db.lookup k = some (RVal.str (Bytes.text s)) ∧
          parseInt s = some (nv - 1))) := by
  unfold redisIncr at h
  revert h
  cases hl : db.lookup k with
  | none =>
    intro h
    dsimp only at h
    have h' : (Except.ok (1, redisWrite k (RVal.str (Bytes.text (intToStr 1))) db) :
        Except Unit (Int × RedisDB)) = .ok (nv, db2) := h
    injection h' with hp
    injection hp with hnv hdb
    subst hnv
    subst hdb
    exact ⟨rfl, Or.inl ⟨rfl, rfl⟩⟩
  | some rv =>
    cases rv with
    | str b =>
      cases b with
      | text s =>
        intro h
        dsimp only at h
        revert h
        cases hp : parseInt s with
        | none => intro h; simp at h
        | some m =>
          intro h
          dsimp only at h
          have h' : (Except.ok (m + 1,
              redisWrite k (RVal.str (Bytes.text (intToStr (m + 1)))) db) :
              Except Unit (Int × RedisDB)) = .ok (nv, db2) := h
          injection h' with hq
          injection hq with hnv hdb
          subst hnv
          subst hdb
          refine ⟨rfl, Or.inr ⟨s, rfl, ?_⟩⟩
          rw [hp]
          congr 1
          ring
      | nonUtf8 j => intro h; simp at h
    | list l => intro h; simp at h

/-! ## Claim theorems -/

/-- C1 counterexample: on a freshly constructed cache, the single call
`store(7)` issues its side effects starting with the append to the
`":inputs"` list — the first command of the trace is the `RPUSH`, not the
`INCR` the claim requires, because `@call_history` (not `@count_calls`) is
the outermost decorator in the source. -/
theorem store_effect_order_counterexample :
    Cache.store (CacheState.mk [] keySeq 0) (PyVal.vint 7) = .ok oneCallResult ∧
    oneCallResult.trace.head? =
      some (RCmd.rpush inputsKey (Bytes.text "(7,)")) ∧
    oneCallResult.trace.head? ≠ some (RCmd.incr countKey) := by
  refine ⟨rfl, rfl, ?_⟩
  decide

/-- C1 (amended): for every successful call to the decorated store
operation, the side effects on the key-value store are issued in this order
within the call: first the append of the serialized input arguments to the
":inputs" list, then the atomic counter increment (INCR on the method
identifier), then the core logic (generate key, SET value), then the append
of the serialized returned key to the ":outputs" list — i.e. the
call-history decoration is outermost and wraps the call-count decoration,
which wraps the core operation. -/
theorem store_effect_order {st : CacheState} {v : PyVal} {r : MethResult}
    (h : Cache.store st v = .ok r) :
    Cache.store = call_history (count_calls Cache.store_core) ∧
    r.trace = [RCmd.rpush inputsKey (Bytes.text (serializeArgs v)),
      RCmd.incr countKey, RCmd.set r.out (encodeVal v),
      RCmd.rpush outputsKey (Bytes.text r.out)] := by
  obtain ⟨db1, nv, db2, h1, h2, h3, hout, hsq, hix, htr⟩ := store_ok_cases h
  refine ⟨rfl, ?_⟩
  rw [hout]
  exact htr

/-- C1 witness: the amended ordering at the concrete call `store(7)` on a
fresh cache. -/
theorem store_effect_order_witness :
    Cache.store (CacheState.mk [] keySeq 0) (PyVal.vint 7) = .ok oneCallResult ∧
    oneCallResult.trace = [RCmd.rpush inputsKey (Bytes.text "(7,)"),
      RCmd.incr countKey, RCmd.set oneCallResult.out (Bytes.text "7"),
      RCmd.rpush outputsKey (Bytes.text oneCallResult.out)] :=
  ⟨rfl, (store_effect_order (show Cache.store (CacheState.mk [] keySeq 0)
    (PyVal.vint 7) = .ok oneCallResult from rfl)).2⟩

/-- C2: for every M ≥ 0, after M calls to `store` on a freshly constructed
cache, the ":inputs" and ":outputs" lists each hold exactly M entries, with
entry i of the outputs list equal to the serialized key returned by the
i-th call, in call order; moreover every single successful call appends
exactly one entry to each list within that call. -/
theorem store_history_log :
    (∀ (db0 : RedisDB) (seq : Nat → String) (vs : List PyVal)
      (st : CacheState) (ks : List String),
      FreshSeq seq →
      runStores (Cache.init db0 seq) vs = .ok (st, ks) →
      listAt st.db inputsKey = vs.map (fun v => Bytes.text (serializeArgs v)) ∧
      listAt st.db outputsKey = ks.map Bytes.text ∧
      (listAt st.db inputsKey).length = vs.length ∧
      (listAt st.db outputsKey).length = vs.length ∧
      ks.length = vs.length) ∧
    (∀ (st : CacheState) (v : PyVal) (r : MethResult),
      st.uuidSeq st.uuidIdx ≠ inputsKey →
      Cache.store st v = .ok r →
      listAt r.st.db inputsKey =
        listAt st.db inputsKey ++ [Bytes.text (serializeArgs v)] ∧
      listAt r.st.db outputsKey =
        listAt st.db outputsKey ++ [Bytes.text r.out]) := by
  constructor
  · intro db0 seq vs st ks hf hrun
    obtain ⟨st', ks', hrun', hlen, hR⟩ :=
      runStores_reach hf vs 0 [] [] (Cache.init db0 seq) (Reach_init db0 seq)
    rw [hrun] at hrun'
    have hpair : st = st' ∧ ks = ks' := by
      have := hrun'
      injection this with hp
      injection hp with h1 h2
      exact ⟨h1, h2⟩
    obtain ⟨rfl, rfl⟩ := hpair
    obtain ⟨hsq, hix, hlin, hlout, hc, hi, ho⟩ := hR
    simp only [List.nil_append, Nat.zero_add] at hi ho hlin hlout
    have hIA : listAt st.db inputsKey =
        vs.map (fun v => Bytes.text (serializeArgs v)) := by
      by_cases n0 : vs.length = 0
      · rw [listAt_eq_nil_of_none (by rw [hi, if_pos n0]),
          List.length_eq_zero.mp n0]
        rfl
      · exact listAt_eq_of_list (by
          rw [hi, if_neg n0])
    have hOA : listAt st.db outputsKey = ks.map Bytes.text := by
      by_cases n0 : vs.length = 0
      · rw [listAt_eq_nil_of_none (by rw [ho, if_pos n0]),
          List.length_eq_zero.mp (hlen.trans n0)]
        rfl
      · exact listAt_eq_of_list (by rw [ho, if_neg n0])
    refine ⟨hIA, hOA, ?_, ?_, hlen⟩
    · rw [hIA, List.length_map]
    · rw [hOA, List.length_map, hlen]
  · intro st v r hkin h
    obtain ⟨db1, nv, db2, h1, h2, h3, hout, hsq, hix, htr⟩ := store_ok_cases h
    obtain ⟨hdb1, hnotstrIn⟩ := redisRpush_ok_inv h1
    obtain ⟨hdb2, _⟩ := redisIncr_ok_inv h2
    obtain ⟨hdb4, hnotstrOut⟩ := redisRpush_ok_inv h3
    subst hdb1
    subst hdb2
    have hko : st.uuidSeq st.uuidIdx ≠ outputsKey := by
      intro hk
      apply hnotstrOut (encodeVal v)
      unfold redisSet
      rw [← hk]
      exact lookup_redisWrite_self _ _ _
    constructor
    · rw [hdb4, listAt_redisWrite_ne _ _ inputsKey_ne_outputsKey]
      unfold redisSet
      rw [listAt_redisWrite_ne _ _ (Ne.symm hkin),
        listAt_redisWrite_ne _ _ countKey_ne_inputsKey.symm,
        listAt_redisWrite_list]
    · rw [hdb4, listAt_redisWrite_list]
      unfold redisSet
      rw [listAt_redisWrite_ne _ _ (Ne.symm hko),
        listAt_redisWrite_ne _ _ countKey_ne_outputsKey.symm,
        listAt_redisWrite_ne _ _ inputsKey_ne_outputsKey.symm, hout]

/-- C2 witness: the two-call run `store(7); store(8)` on a fresh cache,
with both history lists holding exactly two entries and the outputs equal
to the returned keys. -/
theorem store_history_log_witness :
    FreshSeq keySeq ∧
    runStores (Cache.init [] keySeq) [PyVal.vint 7, PyVal.vint 8] =
      .ok (twoCallState, ["key", "key"]) ∧
    listAt twoCallState.db inputsKey = [Bytes.text "(7,)", Bytes.text "(8,)"] ∧
    listAt twoCallState.db outputsKey = [Bytes.text "key", Bytes.text "key"] ∧
    (listAt twoCallState.db inputsKey).length = 2 ∧
    (listAt twoCallState.db outputsKey).length = 2 := by
  have hf : FreshSeq keySeq := fun i =>
    ⟨show "key" ≠ countKey by decide, show "key" ≠ inputsKey by decide,
      show "key" ≠ outputsKey by decide⟩
  have hrun : runStores (Cache.init [] keySeq) [PyVal.vint 7, PyVal.vint 8] =
      .ok (twoCallState, ["key", "key"]) := rfl
  have hm := store_history_log.1 [] keySeq [PyVal.vint 7, PyVal.vint 8]
    twoCallState ["key", "key"] hf hrun
  exact ⟨hf, hrun, hm.1, hm.2.1, hm.2.2.1, hm.2.2.2.1⟩

/-- C3: calling `store` N times on a freshly constructed cache leaves the
counter key holding exactly N (absent for N = 0, as `INCR` has then never
run), `get_int` on the counter key returns N, and every single successful
call increments the counter value by exactly one. -/
theorem store_counter :
    (∀ (db0 : RedisDB) (seq : Nat → String) (vs : List PyVal)
      (st : CacheState) (ks : List String),
      FreshSeq seq →
      runStores (Cache.init db0 seq) vs = .ok (st, ks) →
      st.db.lookup countKey = (if vs.length = 0 then none
        else some (RVal.str (Bytes.text (intToStr (vs.length : Int))))) ∧
      Cache.get_int st countKey = .ok (vs.length : Int)) ∧
    (∀ (st : CacheState) (v : PyVal) (r : MethResult),
      st.uuidSeq st.uuidIdx ≠ countKey →
      Cache.store st v = .ok r →
      counterVal r.st.db = counterVal st.db + 1) := by
  constructor
  · intro db0 seq vs st ks hf hrun
    obtain ⟨st', ks', hrun', hlen, hR⟩ :=
      runStores_reach hf vs 0 [] [] (Cache.init db0 seq) (Reach_init db0 seq)
    rw [hrun] at hrun'
    have hpair : st = st' ∧ ks = ks' := by
      injection hrun' with hp
      injection hp with he1 he2
      exact ⟨he1, he2⟩
    obtain ⟨rfl, rfl⟩ := hpair
    obtain ⟨hsq, hix, hlin, hlout, hc, hi, ho⟩ := hR
    simp only [Nat.zero_add] at hc
    refine ⟨hc, ?_⟩
    unfold Cache.get_int redisGet
    by_cases n0 : vs.length = 0
    · rw [if_pos n0] at hc
      rw [hc, n0]
      rfl
    · rw [if_neg n0] at hc
      rw [hc]
      show Except.ok (pyTryInt (some (Bytes.text (intToStr (vs.length : Int))))) =
        .ok ((vs.length : Nat) : Int)
      show Except.ok ((parseInt (intToStr (vs.length : Int))).getD 0) =
        .ok ((vs.length : Nat) : Int)
      rw [parseInt_intToStr]
      rfl
  · intro st v r hkc h
    obtain ⟨db1, nv, db2, h1, h2, h3, hout, hsq, hix, htr⟩ := store_ok_cases h
    obtain ⟨hdb1, _⟩ := redisRpush_ok_inv h1
    obtain ⟨hdb2, hprev⟩ := redisIncr_ok_inv h2
    obtain ⟨hdb4, hnotstrOut⟩ := redisRpush_ok_inv h3
    subst hdb1
    subst hdb2
    have hafter : counterVal r.st.db = nv := by
      rw [hdb4]
      unfold counterVal
      rw [lookup_redisWrite_ne _ _ countKey_ne_outputsKey]
      unfold redisSet
      rw [lookup_redisWrite_ne _ _ (Ne.symm hkc), lookup_redisWrite_self]
      show (parseInt (intToStr nv)).getD 0 = nv
      rw [parseInt_intToStr]
      rfl
    have hbefore : counterVal st.db = nv - 1 := by
      rcases hprev with ⟨hnone, hnv⟩ | ⟨s, hs, hps⟩
      · have hl0 : st.db.lookup countKey = none :=
          (lookup_redisWrite_ne _ _ countKey_ne_inputsKey).symm.trans hnone
        unfold counterVal
        rw [hl0]
        show (0 : Int) = nv - 1
        omega
      · have hl1 : st.db.lookup countKey = some (RVal.str (Bytes.text s)) :=
          (lookup_redisWrite_ne _ _ countKey_ne_inputsKey).symm.trans hs
        unfold counterVal
        rw [hl1]
        show (parseInt s).getD 0 = nv - 1
        rw [hps]
        rfl
    rw [hafter, hbefore]
    ring

/-- C3 witness: the three-call run `store(1); store(2); store(3)` on a fresh
cache leaves the counter at `"3"` and `get_int` reports `3`. -/
theorem store_counter_witness :
    FreshSeq keySeq ∧
    runStores (Cache.init [] keySeq) [PyVal.vint 1, PyVal.vint 2, PyVal.vint 3] =
      .ok (threeCallState, ["key", "key", "key"]) ∧
    threeCallState.db.lookup countKey = some (RVal.str (Bytes.text "3")) ∧
    Cache.get_int threeCallState countKey = .ok 3 := by
  have hf : FreshSeq keySeq := fun i =>
    ⟨show "key" ≠ countKey by decide, show "key" ≠ inputsKey by decide,
      show "key" ≠ outputsKey by decide⟩
  have hrun : runStores (Cache.init [] keySeq)
      [PyVal.vint 1, PyVal.vint 2, PyVal.vint 3] =
      .ok (threeCallState, ["key", "key", "key"]) := rfl
  have hm := store_counter.1 [] keySeq [PyVal.vint 1, PyVal.vint 2, PyVal.vint 3]
    threeCallState ["key", "key", "key"] hf hrun
  exact ⟨hf, hrun, hm.1, hm.2⟩

/-- C4: for every value of a supported type, `get` on the key returned by
`store(v)` yields exactly the serialized raw form of `v` (so bytes are equal
and strings are equal after UTF-8 decoding, as witnessed by `get_str`), and
integers round-trip through `get_int`. -/
theorem store_get_roundtrip {st : CacheState} {v : PyVal} {r : MethResult}
    (h : Cache.store st v = .ok r) :
    Cache.get r.st r.out = .ok (some (encodeVal v)) ∧
    (∀ s, v = PyVal.vstr s → Cache.get_str r.st r.out = .ok s) ∧
    (∀ b, v = PyVal.vbytes b → Cache.get r.st r.out = .ok (some b)) ∧
    (∀ n : Int, v = PyVal.vint n → Cache.get_int r.st r.out = .ok n) := by
  obtain ⟨db1, nv, db2, h1, h2, h3, hout, hsq, hix, htr⟩ := store_ok_cases h
  obtain ⟨hdb4, hnotstrOut⟩ := redisRpush_ok_inv h3
  have hko : st.uuidSeq st.uuidIdx ≠ outputsKey := by
    intro hk
    apply hnotstrOut (encodeVal v)
    unfold redisSet
    rw [← hk]
    exact lookup_redisWrite_self _ _ _
  have hlook : r.st.db.lookup r.out = some (RVal.str (encodeVal v)) := by
    rw [hdb4, hout, lookup_redisWrite_ne _ _ hko]
    unfold redisSet
    exact lookup_redisWrite_self _ _ _
  have hget : Cache.get r.st r.out = .ok (some (encodeVal v)) := by
    unfold Cache.get redisGet
    rw [hlook]
  refine ⟨hget, ?_, ?_, ?_⟩
  · intro s hv
    subst hv
    unfold Cache.get_str redisGet
    rw [hlook]
    rfl
  · intro b hv
    subst hv
    exact hget
  · intro n hv
    subst hv
    unfold Cache.get_int redisGet
    rw [hlook]
    show Except.ok ((parseInt (intToStr n)).getD 0) = .ok n
    rw [parseInt_intToStr]
    rfl

/-- C4 witness: storing the integer `42` on a fresh cache; `get` returns
the raw decimal bytes and `get_int` recovers `42`. -/
theorem store_get_roundtrip_witness :
    Cache.store (CacheState.mk [] keySeq 0) (PyVal.vint 42) = .ok intStoreResult ∧
    Cache.get intStoreResult.st intStoreResult.out =
      .ok (some (Bytes.text "42")) ∧
    Cache.get_int intStoreResult.st intStoreResult.out = .ok 42 := by
  have hst : Cache.store (CacheState.mk [] keySeq 0) (PyVal.vint 42) =
      .ok intStoreResult := rfl
  have hm := store_get_roundtrip hst
  exact ⟨hst, hm.1, hm.2.2.2 42 rfl⟩

/-- C5: `get_int` returns `0` on each of the three decode failures — absent
key, non-UTF-8 stored bytes, or decoded text that does not parse as an
integer — instead of raising. -/
theorem get_int_fallback_zero (st : CacheState) (k : String) :
    (st.db.lookup k = none → Cache.get_int st k = .ok 0) ∧
    (∀ j, st.db.lookup k = some (RVal.str (Bytes.nonUtf8 j)) →
      Cache.get_int st k = .ok 0) ∧
    (∀ s, st.db.lookup k = some (RVal.str (Bytes.text s)) → parseInt s = none →
      Cache.get_int st k = .ok 0) := by
  refine ⟨?_, ?_, ?_⟩
  · intro h
    unfold Cache.get_int redisGet
    rw [h]
    rfl
  · intro j h
    unfold Cache.get_int redisGet
    rw [h]
    rfl
  · intro s h hp
    unfold Cache.get_int redisGet
    rw [h]
    show Except.ok ((parseInt s).getD 0) = .ok 0
    rw [hp]
    rfl

/-- C5 witness: a database with a non-UTF-8 value at `"a"` and the
non-numeric text `"foo"` at `"b"`; `get_int` yields `0` there and on the
absent key `"zz"`. -/
theorem get_int_fallback_zero_witness :
    (CacheState.mk badValsDb keySeq 0).db.lookup "zz" = none ∧
    Cache.get_int (CacheState.mk badValsDb keySeq 0) "zz" = .ok 0 ∧
    (CacheState.mk badValsDb keySeq 0).db.lookup "a" =
      some (RVal.str (Bytes.nonUtf8 0)) ∧
    Cache.get_int (CacheState.mk badValsDb keySeq 0) "a" = .ok 0 ∧
    (CacheState.mk badValsDb keySeq 0).db.lookup "b" =
      some (RVal.str (Bytes.text "foo")) ∧
    parseInt "foo" = none ∧
    Cache.get_int (CacheState.mk badValsDb keySeq 0) "b" = .ok 0 := by
  refine ⟨rfl, ?_, rfl, ?_, rfl, by decide, ?_⟩
  · exact (get_int_fallback_zero (CacheState.mk badValsDb keySeq 0) "zz").1 rfl
  · exact (get_int_fallback_zero (CacheState.mk badValsDb keySeq 0) "a").2.1 0 rfl
  · exact (get_int_fallback_zero (CacheState.mk badValsDb keySeq 0) "b").2.2
      "foo" rfl (by decide)

/-- C6: `get_str` on an absent key fails (the `None` returned by `GET` has
no `decode` method, so the call raises), rather than returning any sentinel
string. -/
theorem get_str_absent_fails (st : CacheState) (k : String)
    (h : st.db.lookup k = none) : Cache.get_str st k = .error () := by
  unfold Cache.get_str redisGet
  rw [h]
  rfl

/-- C6 witness: `get_str` on the key `"missing"` of a fresh cache errors. -/
theorem get_str_absent_fails_witness :
    (CacheState.mk [] keySeq 0).db.lookup "missing" = none ∧
    Cache.get_str (CacheState.mk [] keySeq 0) "missing" = .error () :=
  ⟨rfl, get_str_absent_fails (CacheState.mk [] keySeq 0) "missing" rfl⟩

/-- C7: for every state of the history lists, `replay` renders one line per
positionally zipped input/output pair — pairing stops at the length of the
shorter list — in the exact form `"<name>(*<input>) -> <output>"`, where an
entry that fails UTF-8 decoding is replaced by the empty string for that
entry only, without aborting the rest of the replay. -/
theorem replay_zip_format (db : RedisDB) (fName : String) (nv : Option Bytes)
    (ins outs : List Bytes)
    (h1 : redisGet db fName = .ok nv)
    (h2 : redisLrangeAll db (fName ++ ":inputs") = .ok ins)
    (h3 : redisLrangeAll db (fName ++ ":outputs") = .ok outs) :
    replay db fName = .ok
      ((fName ++ " was called " ++ replayCount nv ++ " times:") ::
        (ins.zip outs).map (fun p =>
          fName ++ "(*" ++ pyDecodeOrEmpty p.1 ++ ") -> " ++ pyDecodeOrEmpty p.2)) ∧
    (ins.zip outs).length = min ins.length outs.length ∧
    (∀ s, pyDecodeOrEmpty (Bytes.text s) = s) ∧
    (∀ j, pyDecodeOrEmpty (Bytes.nonUtf8 j) = "") := by
  refine ⟨?_, by simp, fun s => rfl, fun j => rfl⟩
  unfold replay
  rw [h1]
  dsimp only
  rw [h2]
  dsimp only
  rw [h3]

/-- C7 witness: three logged inputs (the second not valid UTF-8) against two
logged outputs and no counter key: replay prints exactly two body lines, the
second with an empty input slot. -/
theorem replay_zip_format_witness :
    redisGet replayDb "f" = .ok none ∧
    redisLrangeAll replayDb ("f" ++ ":inputs") =
      .ok [Bytes.text "(1,)", Bytes.nonUtf8 0, Bytes.text "(3,)"] ∧
    redisLrangeAll replayDb ("f" ++ ":outputs") =
      .ok [Bytes.text "k1", Bytes.text "k2"] ∧
    replay replayDb "f" =
      .ok ["f was called 0 times:", "f(*(1,)) -> k1", "f(*) -> k2"] ∧
    ([Bytes.text "(1,)", Bytes.nonUtf8 0, Bytes.text "(3,)"].zip
      [Bytes.text "k1", Bytes.text "k2"]).length = 2 := by
  have hm := replay_zip_format replayDb "f" none
    [Bytes.text "(1,)", Bytes.nonUtf8 0, Bytes.text "(3,)"]
    [Bytes.text "k1", Bytes.text "k2"] rfl rfl rfl
  exact ⟨rfl, rfl, rfl, hm.1, by decide⟩

/-- C8: constructing the cache issues `FLUSHDB`, so afterwards every key of
the underlying store is absent — including any key set (to any value, even
one without the cache's prefix) before a second construction. -/
theorem init_flushes_all (db : RedisDB) (seq : Nat → String) (k : String) :
    ((Cache.init db seq).db).lookup k = none ∧
    ∀ b : Bytes, ((Cache.init (redisSet db k b) seq).db).lookup k = none :=
  ⟨rfl, fun _ => rfl⟩

/-- C9: `list_all` with an absent handle returns the empty sequence without
error, and with a handle returns every document of the collection, in the
store's native iteration order, with no filtering, projection or
pagination. -/
theorem list_all_spec (α : Type) (c : List α) :
    list_all (none : Option (List α)) = [] ∧
    list_all (some c) = c ∧ list_all (some c) = mongoFind c := by
  have hfold : ∀ l : List α, l.foldr List.cons [] = l := by
    intro l
    induction l with
    | nil => rfl
    | cons a l ih => simp [ih]
  exact ⟨rfl, hfold c, hfold c⟩

/-- C10: when `get` is called with a conversion function on an absent key,
the function is applied to the `None` sentinel rather than skipped — the
call returns `fn none`, and so fails exactly when `fn` fails on `None`;
only the function-free call returns the sentinel itself. -/
theorem get_fn_applied_to_none (α : Type) (st : CacheState) (k : String)
    (fn : Option Bytes → Except Unit α) (h : st.db.lookup k = none) :
    Cache.getFn st k fn = fn none ∧ Cache.get st k = .ok none := by
  constructor
  · unfold Cache.getFn redisGet
    rw [h]
  · unfold Cache.get redisGet
    rw [h]

/-- C10 witness: on the absent key `"missing"`, `get` with the UTF-8
decoding function returns exactly `pyDecodeUtf8 none`, which is an error —
the decoder was applied to the sentinel — while the function-free `get`
returns the sentinel. -/
theorem get_fn_applied_to_none_witness :
    (CacheState.mk [] keySeq 0).db.lookup "missing" = none ∧
    Cache.getFn (CacheState.mk [] keySeq 0) "missing" pyDecodeUtf8 =
      pyDecodeUtf8 none ∧
    pyDecodeUtf8 none = .error () ∧
    Cache.get (CacheState.mk [] keySeq 0) "missing" = .ok none := by
  have hm := get_fn_applied_to_none String (CacheState.mk [] keySeq 0)
    "missing" pyDecodeUtf8 rfl
  exact ⟨rfl, hm.1, rfl, hm.2⟩
